import Mathlib

/-!
Verification development for the version-gated codemod orchestrator of
`packages/next-codemod/bin/upgrade.ts`.

The TypeScript source is shallowly embedded:

* Pure computations (`loadHighestNPMVersionMatching`, the applicable-codemod
  slice inside `suggestCodemods`, the dependency-pinning logic) become Lean
  functions with the source's names.
* Effectful steps (the registry fetch, `prompts`, `fs.writeFileSync`,
  `installPackages`, `runTransform`) are threaded through an explicit
  environment `Env` of injected collaborator results, and every externally
  visible action is recorded as an `Event` in an ordered trace, so frame
  properties ("no manifest write before X") are statements about traces.
* Version comparison is performed in the source by the external
  `compare-versions` npm package.  Modelled from the spec: standard
  semantic-version precedence (numeric core fields compared first, a version
  without prerelease greater than the same core with prerelease, prerelease
  identifiers compared numerically when both are numeric and by code units
  otherwise, a strict-prefix identifier list smaller).  The model parses the
  version string and compares an order key living in a lexicographic product
  of linear orders, so transitivity and totality come from the `LinearOrder`
  instances while the comparison stays executable.
* JavaScript string primitives (`includes`, `replace`, `startsWith`) are
  re-implemented structurally over `List Char` with JS semantics
  (`replace` rewrites only the first occurrence).
-/

namespace NextCodemod

/-! ### JavaScript string primitives -/

/-- Split off everything before the first occurrence of `sep`; the second
component is `none` when `sep` does not occur. -/
def splitFirst (sep : Char) : List Char → List Char × Option (List Char)
  | [] => ([], none)
  | c :: cs =>
    if c = sep then ([], some cs)
    else
      let r := splitFirst sep cs
      (c :: r.1, r.2)

/-- Split at every occurrence of `sep` (like `String.prototype.split`). -/
def splitOnChar (sep : Char) : List Char → List (List Char)
  | [] => [[]]
  | c :: cs =>
    if c = sep then [] :: splitOnChar sep cs
    else
      match splitOnChar sep cs with
      | [] => [[c]]
      | h :: t => (c :: h) :: t

def charsToNatAux : List Char → Nat → Option Nat
  | [], acc => some acc
  | c :: cs, acc =>
    if c.isDigit then charsToNatAux cs (acc * 10 + (c.toNat - 48)) else none

/-- Interpret a nonempty all-digit character list as a natural number. -/
def charsToNat? : List Char → Option Nat
  | [] => none
  | l => charsToNatAux l 0

/-- JS `String.prototype.startsWith` on character lists. -/
def startsWithChars : List Char → List Char → Bool
  | _, [] => true
  | [], _ :: _ => false
  | c :: cs, p :: ps => c = p && startsWithChars cs ps

/-- JS `String.prototype.includes` on character lists. -/
def includesChars : List Char → List Char → Bool
  | [], pat => startsWithChars [] pat
  | c :: cs, pat => startsWithChars (c :: cs) pat || includesChars cs pat

/-- JS `String.prototype.replace` with a string pattern: rewrites only the
first occurrence. -/
def replaceFirstChars : List Char → List Char → List Char → List Char
  | [], _, _ => []
  | c :: cs, pat, rep =>
    if startsWithChars (c :: cs) pat then rep ++ (c :: cs).drop pat.length
    else c :: replaceFirstChars cs pat rep

def jsStartsWith (s pat : String) : Bool := startsWithChars s.toList pat.toList

def jsIncludes (s pat : String) : Bool := includesChars s.toList pat.toList

def jsReplaceFirst (s pat rep : String) : String :=
  (replaceFirstChars s.toList pat.toList rep.toList).asString

/-! ### Semantic versions -/

/-- Parsed semantic version `major.minor.patch[-prerelease][+build]`.
Build metadata is dropped (it never participates in precedence). -/
structure SemVer where
  major : Nat
  minor : Nat
  patch : Nat
  prerelease : List String
deriving DecidableEq, Repr

/-- Parse a version string.  Missing or non-numeric core fields default to
0, matching the lenient parsing of the `compare-versions` package. -/
def parseSemVer (s : String) : SemVer :=
  let chars := (splitFirst '+' s.toList).1
  let core := (splitFirst '-' chars).1
  let pre : List String :=
    match (splitFirst '-' chars).2 with
    | none => []
    | some rest => (splitOnChar '.' rest).map List.asString
  let nums := splitOnChar '.' core
  { major := (charsToNat? (nums.getD 0 [])).getD 0
    minor := (charsToNat? (nums.getD 1 [])).getD 0
    patch := (charsToNat? (nums.getD 2 [])).getD 0
    prerelease := pre }

/-- Order key of one prerelease identifier: numeric identifiers sort below
alphanumeric ones and numerically among themselves; alphanumeric
identifiers sort lexicographically by character code. -/
abbrev PreId := Lex (Nat ⊕ List Nat)

/-- Order key of the prerelease part: an empty prerelease (a release
version) is greater than any prerelease, hence `⊤`; otherwise identifier
lists compare lexicographically, a strict prefix being smaller. -/
abbrev PreListKey := WithTop (List PreId)

/-- Full order key: lexicographic on major, minor, patch, prerelease. -/
abbrev VKey := Lex (Nat × Lex (Nat × Lex (Nat × PreListKey)))

def preIdKey (s : String) : PreId :=
  toLex (match charsToNat? s.toList with
  | some n => Sum.inl n
  | none => Sum.inr (s.toList.map Char.toNat))

def preListKey : List String → PreListKey
  | [] => ⊤
  | l => ↑(l.map preIdKey)

def semVerKey (v : SemVer) : VKey :=
  toLex (v.major, toLex (v.minor, toLex (v.patch, preListKey v.prerelease)))

/-- Order key of a version string. -/
def vkey (s : String) : VKey :=
  semVerKey (parseSemVer s)

/-- Model of the `compareVersions` function the source imports from the
`compare-versions` package: negative / zero / positive according to
semantic-version precedence. -/
def compareVersions (a b : String) : Int :=
  if vkey a < vkey b then -1
  else if vkey b < vkey a then 1
  else 0

/-! ### Data model of the orchestrator -/

/-- Relevant shape of the registry metadata for `next/<revision>`: the
source destructures only `version` and `peerDependencies['react']`. -/
structure TargetNextPackageJson where
  version : String
  peerDependenciesReact : String
deriving DecidableEq, Repr

/-- Relevant shape of the application's `package.json`: the orchestrator
reads and mutates only `scripts.dev` (via `suggestTurbopack`) before
serializing the whole object back to disk. -/
structure AppPackageJson where
  scriptsDev : String
deriving DecidableEq, Repr

/-- Modelled from the spec: one entry of `TRANSFORMER_INQUIRER_CHOICES`
(defined in `lib/utils`, outside the provided source): a codemod descriptor
with stable id `value`, human `title` and the release `version` that
introduced it.  The catalog itself is passed in via `Env.catalog`; the
spec's invariant that insertion order is ascending `introducedInVersion`
order becomes a hypothesis of the ordering theorems. -/
structure CodemodDescriptor where
  title : String
  value : String
  version : String
deriving DecidableEq, Repr

inductive UpgradeError
  /-- The `next/<revision>` fetch did not yield an object with `version`
  and `peerDependencies` fields. -/
  | invalidRevision
  /-- `getInstalledNextVersion` could not resolve `next/package.json`. -/
  | cannotDetectInstalled
  /-- `loadHighestNPMVersionMatching` saw an empty result set. -/
  | noMatchingVersion
deriving DecidableEq, Repr

/-- Externally visible actions of a run, in order of occurrence. -/
inductive Event
  /-- An `npm view <query> --json --field version` invocation. -/
  | npmQuery (query : String)
  /-- An interactive `prompts` question. -/
  | prompt (name : String)
  /-- `fs.writeFileSync(appPackageJsonPath, JSON.stringify(...))`. -/
  | writeManifest (content : AppPackageJson)
  /-- `installPackages(deps, ...)` together with its exit status. -/
  | install (deps : List String) (ok : Bool)
  /-- `runTransform(codemod, cwd, ...)` together with its outcome. -/
  | transform (codemod : String) (ok : Bool)
deriving DecidableEq, Repr

/-- Terminal state of a run. -/
inductive RunResult
  /-- Early return: installed version already `>=` target. -/
  | alreadyCurrent
  /-- The run reached the end; per-codemod outcomes are recorded. -/
  | completed (outcomes : List (String × Bool))
  /-- A thrown error terminated the run. -/
  | aborted (e : UpgradeError)
deriving DecidableEq, Repr

/-- Injected results of all external collaborators of one `runUpgrade`
invocation.  `fetchNext` is the (already shape-checked) registry response
for `next/<revision>`; `installedNext` the locally detected version;
`npmView` the registry's version listing per query; `selectCodemods` the
multiselect oracle, returning the chosen subset of the presented values in
presentation order; `installOk` and `transformOk` are the exit statuses of
the external install step and transform runner (modelled from the spec:
both are opaque `-> success|failure` collaborators). -/
structure Env where
  packageJson : AppPackageJson
  fetchNext : Option TargetNextPackageJson
  installedNext : Option String
  npmView : String → List String
  catalog : List CodemodDescriptor
  turbopackEnable : Bool
  customDevScript : String
  selectCodemods : List String → List String
  installOk : Bool
  transformOk : String → Bool

/-! ### The orchestrator -/

/-- Embedding of `loadHighestNPMVersionMatching` applied to the parsed
`npm view` output: an empty result set throws ("Found no React versions
matching ..."); otherwise the last entry of the array is returned (npm
prints a bare scalar when exactly one version matches, which coincides
with the last entry of a singleton list). -/
def loadHighestNPMVersionMatching (versions : List String) : Except UpgradeError String :=
  match versions with
  | [] => .error .noMatchingVersion
  | v :: vs => .ok (vs.getLastD v)

/-- Embedding of `suggestTurbopack`: possibly rewrites `scripts.dev`,
prompting the user along the way.  Returns the prompt events and the
(possibly mutated) manifest. -/
def suggestTurbopack (env : Env) : List Event × AppPackageJson :=
  if jsIncludes env.packageJson.scriptsDev "--turbo" then ([], env.packageJson)
  else if !env.turbopackEnable then ([Event.prompt "turbopack"], env.packageJson)
  else if jsIncludes env.packageJson.scriptsDev "next dev" then
    ([Event.prompt "turbopack"],
     { env.packageJson with
        scriptsDev := jsReplaceFirst env.packageJson.scriptsDev "next dev" "next dev --turbo" })
  else
    ([Event.prompt "turbopack", Event.prompt "customDevScript"],
     { env.packageJson with
        scriptsDev :=
          if env.customDevScript = "" then env.packageJson.scriptsDev
          else env.customDevScript })

/-- The deterministic core of `suggestCodemods`: the
`findIndex`/`findIndex`/`slice` computation selecting the applicable
chunk of the catalog. -/
def relevantCodemods (catalog : List CodemodDescriptor)
    (initialNextVersion targetNextVersion : String) : List CodemodDescriptor :=
  match catalog.findIdx? (fun c => 0 < compareVersions c.version initialNextVersion) with
  | none => []
  | some initialVersionIndex =>
    (catalog.drop initialVersionIndex).take
      (((catalog.findIdx? (fun c => 0 < compareVersions c.version targetNextVersion)).getD
          catalog.length)
        - initialVersionIndex)

/-- Embedding of `suggestCodemods`: computes the applicable slice, and if
nonempty presents it to the multiselect oracle — after an in-place
`.reverse()` of the slice — returning the selected codemod values in
presentation order. -/
def suggestCodemods (oracle : List String → List String)
    (catalog : List CodemodDescriptor)
    (initialNextVersion targetNextVersion : String) : List Event × List String :=
  match relevantCodemods catalog initialNextVersion targetNextVersion with
  | [] => ([], [])
  | c :: cs =>
    ([Event.prompt "codemods"], oracle ((c :: cs).reverse.map (fun d => d.value)))

/-- The `suggestTurbopack` call is gated on the target being at least
`15.0.0-canary`. -/
def turboStep (env : Env) (targetNextVersion : String) : List Event × AppPackageJson :=
  if compareVersions targetNextVersion "15.0.0-canary" ≥ 0 then suggestTurbopack env
  else ([], env.packageJson)

/-- Embedding of the `reactDependencies` computation (after the manifest
write): a 19.0.0 canary/beta/rc React target pins the `@types/*` packages
to the fixed `npm:types-react@rc` aliases without touching the registry;
any other target resolves both `@types/*` packages against the registry
through the react peer-dependency range, via a `Promise.all` whose two
queries both execute before the first failure propagates. -/
def resolveReactDeps (env : Env) (reactPeer targetReactVersion : String) :
    List Event × Except UpgradeError (List String) :=
  if jsStartsWith targetReactVersion "19.0.0-canary"
      || jsStartsWith targetReactVersion "19.0.0-beta"
      || jsStartsWith targetReactVersion "19.0.0-rc" then
    ([], .ok ["react@" ++ targetReactVersion, "react-dom@" ++ targetReactVersion,
              "@types/react@npm:types-react@rc", "@types/react-dom@npm:types-react-dom@rc"])
  else
    match loadHighestNPMVersionMatching (env.npmView ("@types/react@" ++ reactPeer)),
          loadHighestNPMVersionMatching (env.npmView ("@types/react-dom@" ++ reactPeer)) with
    | .error e, _ =>
      ([Event.npmQuery ("@types/react@" ++ reactPeer),
        Event.npmQuery ("@types/react-dom@" ++ reactPeer)], .error e)
    | .ok _, .error e =>
      ([Event.npmQuery ("@types/react@" ++ reactPeer),
        Event.npmQuery ("@types/react-dom@" ++ reactPeer)], .error e)
    | .ok t1, .ok t2 =>
      ([Event.npmQuery ("@types/react@" ++ reactPeer),
        Event.npmQuery ("@types/react-dom@" ++ reactPeer)],
       .ok ["react@" ++ targetReactVersion, "react-dom@" ++ targetReactVersion,
            "@types/react@" ++ t1, "@types/react-dom@" ++ t2])

/-- The tail of the run: `installPackages` followed by the sequential
codemod loop.  Modelled from the spec: `installPackages` and
`runTransform` are external `-> success|failure` collaborators with their
own internal reporting, so each call is recorded with its injected exit
status and the loop never stops early. -/
def installAndCodemods (env : Env) (deps : List String) (codemods : List String) :
    List Event × RunResult :=
  (Event.install deps env.installOk
     :: codemods.map (fun c => Event.transform c (env.transformOk c)),
   .completed (codemods.map (fun c => (c, env.transformOk c))))

/-- Everything `runUpgrade` does after the react peer version resolved:
turbopack suggestion (gated), codemod selection, the manifest write, the
`@types/*` resolution, install, codemod loop.  The manifest write sits
before the `@types/*` queries, exactly as in the source. -/
def runUpgradeRest (env : Env) (target : TargetNextPackageJson)
    (installed targetReactVersion : String) : List Event × RunResult :=
  match resolveReactDeps env target.peerDependenciesReact targetReactVersion with
  | (tyev, .error e) =>
    ((turboStep env target.version).1
       ++ (suggestCodemods env.selectCodemods env.catalog installed target.version).1
       ++ [Event.writeManifest (turboStep env target.version).2]
       ++ tyev,
     .aborted e)
  | (tyev, .ok reactDeps) =>
    ((turboStep env target.version).1
       ++ (suggestCodemods env.selectCodemods env.catalog installed target.version).1
       ++ [Event.writeManifest (turboStep env target.version).2]
       ++ tyev
       ++ (installAndCodemods env (("next@" ++ target.version) :: reactDeps)
             (suggestCodemods env.selectCodemods env.catalog installed target.version).2).1,
     (installAndCodemods env (("next@" ++ target.version) :: reactDeps)
        (suggestCodemods env.selectCodemods env.catalog installed target.version).2).2)

/-- Embedding of `runUpgrade`: the full orchestrator, returning the
ordered trace of externally visible actions and the terminal state. -/
def runUpgrade (env : Env) : List Event × RunResult :=
  match env.fetchNext with
  | none => ([], .aborted .invalidRevision)
  | some target =>
    match env.installedNext with
    | none => ([], .aborted .cannotDetectInstalled)
    | some installed =>
      if compareVersions installed target.version ≥ 0 then
        ([], .alreadyCurrent)
      else
        match loadHighestNPMVersionMatching
            (env.npmView ("react@" ++ target.peerDependenciesReact)) with
        | .error e =>
          ([Event.npmQuery ("react@" ++ target.peerDependenciesReact)], .aborted e)
        | .ok targetReactVersion =>
          (Event.npmQuery ("react@" ++ target.peerDependenciesReact)
             :: (runUpgradeRest env target installed targetReactVersion).1,
           (runUpgradeRest env target installed targetReactVersion).2)

/-- The codemod ids of the transform events of a trace, in order. -/
def transformsOf (tr : List Event) : List String :=
  tr.filterMap (fun ev => match ev with
    | Event.transform c _ => some c
    | _ => none)

/-! ### Concrete instances used by witnesses and counterexamples -/
def c6Env : Env :=
  { packageJson := ⟨"next dev"⟩
    fetchNext := some ⟨"15.0.0", "^18.2.0 || ^19.0.0"⟩
    installedNext := some "15.0.0"
    npmView := fun _ => []
    catalog := []
    turbopackEnable := true
    customDevScript := ""
    selectCodemods := fun l => l
    installOk := true
    transformOk := fun _ => true }
def c2Env : Env :=
  { packageJson := ⟨"next dev"⟩
    fetchNext := some ⟨"15.0.0", "^18.2.0"⟩
    installedNext := some "14.0.0"
    npmView := fun q =>
      if q = "react@^18.2.0" then ["18.3.1"]
      else if q = "@types/react@^18.2.0" then []
      else ["18.3.1"]
    catalog := []
    turbopackEnable := true
    customDevScript := ""
    selectCodemods := fun l => l
    installOk := true
    transformOk := fun _ => true }
def c2ReactFailEnv : Env :=
  { c2Env with npmView := fun _ => [] }
def cat3 : List CodemodDescriptor :=
  [⟨"Codemod A", "cm-a", "14.0.0"⟩, ⟨"Codemod B", "cm-b", "15.0.0"⟩,
   ⟨"Codemod C", "cm-c", "15.2.0"⟩]
def okEnv : Env :=
  { packageJson := ⟨"next dev --turbo"⟩
    fetchNext := some ⟨"15.2.0", "^19.0.0-rc"⟩
    installedNext := some "13.0.0"
    npmView := fun q => if q = "react@^19.0.0-rc" then ["19.0.0-rc.1"] else []
    catalog := cat3
    turbopackEnable := true
    customDevScript := ""
    selectCodemods := fun l => l
    installOk := false
    transformOk := fun c => !(c == "cm-b") }
def okTrace : List Event :=
  [Event.npmQuery "react@^19.0.0-rc", Event.prompt "codemods",
   Event.writeManifest ⟨"next dev --turbo"⟩,
   Event.install ["next@15.2.0", "react@19.0.0-rc.1", "react-dom@19.0.0-rc.1",
                  "@types/react@npm:types-react@rc",
                  "@types/react-dom@npm:types-react-dom@rc"] false,
   Event.transform "cm-c" true, Event.transform "cm-b" false,
   Event.transform "cm-a" true]
def okOuts : List (String × Bool) :=
  [("cm-c", true), ("cm-b", false), ("cm-a", true)]
def okDeps : List String :=
  ["next@15.2.0", "react@19.0.0-rc.1", "react-dom@19.0.0-rc.1",
   "@types/react@npm:types-react@rc", "@types/react-dom@npm:types-react-dom@rc"]
def c10Deps : List String :=
  ["next@15.0.0", "react@18.3.1", "react-dom@18.3.1",
   "@types/react@18.3.3", "@types/react-dom@18.3.4"]
def c10Env : Env :=
  { packageJson := ⟨"next dev --turbo"⟩
    fetchNext := some ⟨"15.0.0", "^18.2.0"⟩
    installedNext := some "14.0.0"
    npmView := fun q =>
      if q = "react@^18.2.0" then ["18.2.0", "18.3.1"]
      else if q = "@types/react@^18.2.0" then ["18.3.3"]
      else if q = "@types/react-dom@^18.2.0" then ["18.3.4"]
      else []
    catalog := []
    turbopackEnable := true
    customDevScript := ""
    selectCodemods := fun l => l
    installOk := true
    transformOk := fun _ => true }
def c10Trace : List Event :=
  [Event.npmQuery "react@^18.2.0",
   Event.writeManifest ⟨"next dev --turbo"⟩,
   Event.npmQuery "@types/react@^18.2.0", Event.npmQuery "@types/react-dom@^18.2.0",
   Event.install c10Deps true]
def c1Catalog : List CodemodDescriptor :=
  [⟨"Codemod A", "cm-a", "14.0.0"⟩, ⟨"Codemod B", "cm-b", "15.0.0"⟩]
def c1Env : Env :=
  { packageJson := ⟨"next dev --turbo"⟩
    fetchNext := some ⟨"15.0.0", "^18.2.0"⟩
    installedNext := some "13.0.0"
    npmView := fun q => if q = "react@^18.2.0" then ["18.3.1"] else ["18.3.3"]
    catalog := c1Catalog
    turbopackEnable := true
    customDevScript := ""
    selectCodemods := fun l => l
    installOk := true
    transformOk := fun _ => true }

/-- Spot checks of the semantic-version comparison on the version
shapes the upgrader handles. -/
theorem compareVersions_spot_checks :
    (compareVersions "13.0.0" "14.0.0" = -1)
    ∧ (compareVersions "15.0.0" "15.0.0" = 0)
    ∧ (compareVersions "15.0.0" "15.0.0-canary" = 1)
    ∧ (compareVersions "19.0.0-rc.0" "19.0.0-rc.1" = -1)
    ∧ (compareVersions "15.0.0-canary.171" "15.0.0-rc.0" = -1) := by
  refine ⟨by decide, by decide, by decide, by decide, by decide⟩

/-! ### Bridging the integer comparison to the order on keys -/

theorem compareVersions_neg_iff {a b : String} :
    compareVersions a b < 0 ↔ vkey a < vkey b := by
  unfold compareVersions
  split_ifs with h1 h2
  · exact iff_of_true (by decide) h1
  · exact iff_of_false (by decide) h1
  · exact iff_of_false (by decide) h1

theorem compareVersions_pos_iff {a b : String} :
    0 < compareVersions a b ↔ vkey b < vkey a := by
  unfold compareVersions
  split_ifs with h1 h2
  · exact iff_of_false (by decide) (lt_asymm h1)
  · exact iff_of_true (by decide) h2
  · exact iff_of_false (by decide) h2

theorem compareVersions_nonneg_iff {a b : String} :
    0 ≤ compareVersions a b ↔ vkey b ≤ vkey a := by
  unfold compareVersions
  split_ifs with h1 h2
  · exact iff_of_false (by decide) (not_le.mpr h1)
  · exact iff_of_true (by decide) (le_of_lt h2)
  · exact iff_of_true (by decide) (le_of_not_lt h1)

theorem compareVersions_nonpos_iff {a b : String} :
    compareVersions a b ≤ 0 ↔ vkey a ≤ vkey b := by
  unfold compareVersions
  split_ifs with h1 h2
  · exact iff_of_true (by decide) (le_of_lt h1)
  · exact iff_of_false (by decide) (not_le.mpr h2)
  · exact iff_of_true (by decide) (le_of_not_lt h2)

theorem compareVersions_self (a : String) : compareVersions a a = 0 := by
  unfold compareVersions
  simp

/-! ### C6: installed `>=` target is a complete no-op -/

/-- C6: whenever the installed Next.js version is `>=` the target version
(equality included), `runUpgrade` returns the already-current outcome with
an empty action trace — no manifest write, no install, no prompt, no npm
query and no codemod application. -/
theorem alreadyCurrent_noop (env : Env) (target : TargetNextPackageJson)
    (installed : String)
    (hf : env.fetchNext = some target) (hi : env.installedNext = some installed)
    (hge : compareVersions installed target.version ≥ 0) :
    runUpgrade env = ([], RunResult.alreadyCurrent) := by
  unfold runUpgrade
  rw [hf, hi]
  simp [hge]

theorem alreadyCurrent_noop_witness :
    compareVersions "15.0.0" "15.0.0" ≥ 0
    ∧ runUpgrade c6Env = ([], RunResult.alreadyCurrent) :=
  ⟨by decide, alreadyCurrent_noop c6Env ⟨"15.0.0", "^18.2.0 || ^19.0.0"⟩ "15.0.0"
    rfl rfl (by decide)⟩

/-! ### C8: `loadHighestNPMVersionMatching` fails exactly on an empty set -/

/-- C8: `loadHighestNPMVersionMatching` raises `NoMatchingVersionError`
exactly when the registry's result set for the query is empty; on a
non-empty result set it returns a version and does not raise. -/
theorem loadHighest_error_iff (versions : List String) :
    (loadHighestNPMVersionMatching versions = .error .noMatchingVersion ↔ versions = [])
    ∧ (versions ≠ [] → ∃ v, loadHighestNPMVersionMatching versions = .ok v) := by
  constructor
  · cases versions <;> simp [loadHighestNPMVersionMatching]
  · cases versions <;> simp [loadHighestNPMVersionMatching]

theorem loadHighest_error_iff_witness :
    (["18.3.1", "19.0.0"] : List String) ≠ []
    ∧ ∃ v, loadHighestNPMVersionMatching ["18.3.1", "19.0.0"] = .ok v :=
  ⟨by decide, (loadHighest_error_iff ["18.3.1", "19.0.0"]).2 (by decide)⟩

/-! ### C7: the returned version versus the maximum of the result set -/

/-- C7 counterexample: `loadHighestNPMVersionMatching` returns the last
entry of the npm result array, not the semantic-version maximum.  When the
registry lists a matching version after a semantically higher one (npm
lists versions in publication order, and e.g. a backported patch is
published after the next major), the returned version is lower than
another member of the matching set. -/
theorem loadHighest_not_max_counterexample :
    loadHighestNPMVersionMatching ["19.0.0", "18.3.2"] = .ok "18.3.2"
    ∧ "19.0.0" ∈ (["19.0.0", "18.3.2"] : List String)
    ∧ compareVersions "18.3.2" "19.0.0" < 0 :=
  ⟨rfl, by decide, by decide⟩

lemma loadHighest_ok_mem {versions : List String} {v : String}
    (h : loadHighestNPMVersionMatching versions = .ok v) : v ∈ versions := by
  cases versions with
  | nil => simp [loadHighestNPMVersionMatching] at h
  | cons a l =>
    simp only [loadHighestNPMVersionMatching, Except.ok.injEq] at h
    subst h
    exact List.getLastD_mem_cons l a

/-- C7 amended: `loadHighestNPMVersionMatching` returns the last entry of
the registry's result list; whenever that list is ascending with respect
to semantic-version precedence (as `npm view` produces for the queries the
upgrader issues), the returned version is the maximum: no member of the
matching set exceeds it. -/
theorem loadHighest_last_is_max_of_sorted (versions : List String)
    (hne : versions ≠ [])
    (hsort : versions.Pairwise (fun a b => compareVersions a b ≤ 0)) :
    ∃ v, loadHighestNPMVersionMatching versions = .ok v
      ∧ ∀ x ∈ versions, compareVersions x v ≤ 0 := by
  induction versions with
  | nil => exact absurd rfl hne
  | cons a l ih =>
    cases l with
    | nil =>
      refine ⟨a, rfl, ?_⟩
      intro x hx
      rw [List.mem_singleton] at hx
      subst hx
      rw [compareVersions_self]
    | cons b m =>
      rw [List.pairwise_cons] at hsort
      obtain ⟨hhead, htail⟩ := hsort
      obtain ⟨v, hv, hall⟩ := ih (by simp) htail
      refine ⟨v, ?_, ?_⟩
      · simp only [loadHighestNPMVersionMatching, List.getLastD_cons] at hv ⊢
        exact hv
      · intro x hx
        rcases List.mem_cons.mp hx with rfl | hx
        · exact hhead v (loadHighest_ok_mem hv)
        · exact hall x hx

theorem loadHighest_last_is_max_of_sorted_witness :
    (["18.3.0", "18.3.2", "19.0.0"] : List String) ≠ []
    ∧ ∃ v, loadHighestNPMVersionMatching ["18.3.0", "18.3.2", "19.0.0"] = .ok v
        ∧ ∀ x ∈ (["18.3.0", "18.3.2", "19.0.0"] : List String),
            compareVersions x v ≤ 0 :=
  ⟨by decide, loadHighest_last_is_max_of_sorted ["18.3.0", "18.3.2", "19.0.0"]
    (by decide) (by decide)⟩

/-! ### C2: resolution failures versus the manifest write -/

/-- C2 counterexample: an empty result set for the `@types/react` peer
query terminates the run with the no-matching-version error, yet the trace
already contains the manifest write — with content differing from the
original `package.json` (the dev script was rewritten) — because the
source writes `package.json` before issuing the `@types/*` queries.  So a
resolution-phase failure does not always leave the manifest untouched. -/
theorem types_failure_after_write_counterexample :
    runUpgrade c2Env
      = ([Event.npmQuery "react@^18.2.0", Event.prompt "turbopack",
          Event.writeManifest ⟨"next dev --turbo"⟩,
          Event.npmQuery "@types/react@^18.2.0", Event.npmQuery "@types/react-dom@^18.2.0"],
         RunResult.aborted .noMatchingVersion)
    ∧ Event.writeManifest ⟨"next dev --turbo"⟩ ∈ (runUpgrade c2Env).1
    ∧ (⟨"next dev --turbo"⟩ : AppPackageJson) ≠ c2Env.packageJson := by
  refine ⟨by decide, by decide, by decide⟩

/-- C2 amended: an invalid revision token, an undetectable installed
version, and an empty result set for the `react` peer query all abort
before any manifest write (the trace contains no write event); but when
the `react` query succeeds and the run aborts later — the only remaining
abort being an empty `@types/react` or `@types/react-dom` result — the
manifest has already been written. -/
theorem resolution_failures_vs_manifest_write (env : Env) (tr : List Event)
    (e : UpgradeError) (h : runUpgrade env = (tr, RunResult.aborted e)) :
    (env.fetchNext = none → tr = [])
    ∧ (env.installedNext = none → tr = [])
    ∧ (∀ target, env.fetchNext = some target →
        loadHighestNPMVersionMatching (env.npmView ("react@" ++ target.peerDependenciesReact))
          = .error .noMatchingVersion →
        ∀ pj, Event.writeManifest pj ∉ tr)
    ∧ (∀ target installed v, env.fetchNext = some target →
        env.installedNext = some installed →
        loadHighestNPMVersionMatching (env.npmView ("react@" ++ target.peerDependenciesReact))
          = .ok v →
        ∃ pj, Event.writeManifest pj ∈ tr) := by
  refine ⟨?_, ?_, ?_, ?_⟩
  · intro hf
    unfold runUpgrade at h
    simp only [hf, Prod.mk.injEq] at h
    exact h.1.symm
  · intro hi
    unfold runUpgrade at h
    rcases hf : env.fetchNext with _ | target <;>
      simp only [hf, hi, Prod.mk.injEq] at h <;> exact h.1.symm
  · intro target hf hq pj hmem
    unfold runUpgrade at h
    rcases hi : env.installedNext with _ | installed
    · simp only [hf, hi, Prod.mk.injEq] at h
      rw [← h.1] at hmem
      simp at hmem
    · simp only [hf, hi] at h
      split at h
      · simp at h
      · simp only [hq, Prod.mk.injEq] at h
        rw [← h.1] at hmem
        simp at hmem
  · intro target installed v hf hi hq
    unfold runUpgrade at h
    simp only [hf, hi] at h
    split at h
    · simp at h
    · simp only [hq, Prod.mk.injEq] at h
      refine ⟨(turboStep env target.version).2, ?_⟩
      rw [← h.1]
      unfold runUpgradeRest
      rcases hrd : resolveReactDeps env target.peerDependenciesReact v with ⟨tyev, res⟩
      cases res <;> simp [hrd]

theorem resolution_failures_vs_manifest_write_witness :
    runUpgrade c2ReactFailEnv
      = ([Event.npmQuery "react@^18.2.0"], RunResult.aborted .noMatchingVersion)
    ∧ Event.writeManifest ⟨"next dev"⟩ ∉ [Event.npmQuery "react@^18.2.0"] :=
  ⟨by decide,
   (resolution_failures_vs_manifest_write c2ReactFailEnv [Event.npmQuery "react@^18.2.0"]
      .noMatchingVersion (by decide)).2.2.1 ⟨"15.0.0", "^18.2.0"⟩ rfl rfl
      ⟨"next dev"⟩⟩

/-! ### Structure of completed runs -/

/-- Structure of every run that reaches completion: the branch conditions
it passed and the exact shape of its trace and its outcome list. -/
lemma runUpgrade_completed_shape (env : Env) (tr : List Event)
    (outs : List (String × Bool))
    (h : runUpgrade env = (tr, RunResult.completed outs)) :
    ∃ target installed trv tyev reactDeps,
      env.fetchNext = some target
      ∧ env.installedNext = some installed
      ∧ ¬ compareVersions installed target.version ≥ 0
      ∧ loadHighestNPMVersionMatching
          (env.npmView ("react@" ++ target.peerDependenciesReact)) = .ok trv
      ∧ resolveReactDeps env target.peerDependenciesReact trv = (tyev, .ok reactDeps)
      ∧ tr = Event.npmQuery ("react@" ++ target.peerDependenciesReact)
               :: (turboStep env target.version).1
               ++ (suggestCodemods env.selectCodemods env.catalog installed target.version).1
               ++ [Event.writeManifest (turboStep env target.version).2]
               ++ tyev
               ++ Event.install (("next@" ++ target.version) :: reactDeps) env.installOk
               :: (suggestCodemods env.selectCodemods env.catalog installed target.version).2.map
                    (fun c => Event.transform c (env.transformOk c))
      ∧ outs = (suggestCodemods env.selectCodemods env.catalog installed target.version).2.map
                 (fun c => (c, env.transformOk c)) := by
  unfold runUpgrade at h
  rcases hf : env.fetchNext with _ | target
  · simp [hf] at h
  rcases hi : env.installedNext with _ | installed
  · simp [hf, hi] at h
  simp only [hf, hi] at h
  split at h
  · simp at h
  rename_i hge
  rcases hq : loadHighestNPMVersionMatching
      (env.npmView ("react@" ++ target.peerDependenciesReact)) with e | trv
  · simp [hq] at h
  simp only [hq] at h
  unfold runUpgradeRest at h
  rcases hrd : resolveReactDeps env target.peerDependenciesReact trv with ⟨tyev, res⟩
  cases res with
  | error e =>
    rw [hrd] at h
    simp at h
  | ok reactDeps =>
    rw [hrd] at h
    simp only [installAndCodemods, Prod.mk.injEq, RunResult.completed.injEq] at h
    exact ⟨target, installed, trv, tyev, reactDeps, rfl, rfl, hge, hq, hrd,
      h.1.symm, h.2.symm⟩

lemma suggestTurbopack_events (env : Env) :
    ∀ ev ∈ (suggestTurbopack env).1, ∃ n, ev = Event.prompt n := by
  unfold suggestTurbopack
  split_ifs <;> intro ev hev <;> simp at hev <;>
    first
      | exact ⟨"turbopack", hev⟩
      | exact hev.elim (fun h2 => ⟨"turbopack", h2⟩) (fun h2 => ⟨"customDevScript", h2⟩)

lemma turboStep_events (env : Env) (t : String) :
    ∀ ev ∈ (turboStep env t).1, ∃ n, ev = Event.prompt n := by
  unfold turboStep
  split_ifs
  · exact suggestTurbopack_events env
  · intro ev hev
    simp at hev

lemma suggestCodemods_events (oracle : List String → List String)
    (catalog : List CodemodDescriptor) (i t : String) :
    ∀ ev ∈ (suggestCodemods oracle catalog i t).1, ev = Event.prompt "codemods" := by
  intro ev hev
  simp only [suggestCodemods] at hev
  rcases hrel : relevantCodemods catalog i t with _ | ⟨c, cs⟩ <;>
    rw [hrel] at hev <;> simp_all

/-- Structure of the `reactDependencies` list and the `@types/*` query
events on the success path of `resolveReactDeps`. -/
lemma resolveReactDeps_ok (env : Env) (p v : String) (tyev : List Event)
    (deps : List String)
    (h : resolveReactDeps env p v = (tyev, .ok deps)) :
    if jsStartsWith v "19.0.0-canary" || jsStartsWith v "19.0.0-beta"
        || jsStartsWith v "19.0.0-rc" then
      tyev = []
      ∧ deps = ["react@" ++ v, "react-dom@" ++ v,
                "@types/react@npm:types-react@rc", "@types/react-dom@npm:types-react-dom@rc"]
    else
      ∃ t1 t2,
        loadHighestNPMVersionMatching (env.npmView ("@types/react@" ++ p)) = .ok t1
        ∧ loadHighestNPMVersionMatching (env.npmView ("@types/react-dom@" ++ p)) = .ok t2
        ∧ tyev = [Event.npmQuery ("@types/react@" ++ p),
                  Event.npmQuery ("@types/react-dom@" ++ p)]
        ∧ deps = ["react@" ++ v, "react-dom@" ++ v,
                  "@types/react@" ++ t1, "@types/react-dom@" ++ t2] := by
  unfold resolveReactDeps at h
  split_ifs at h with hb
  · rw [if_pos hb]
    simp only [Prod.mk.injEq, Except.ok.injEq] at h
    exact ⟨h.1.symm, h.2.symm⟩
  · rw [if_neg hb]
    rcases h1 : loadHighestNPMVersionMatching (env.npmView ("@types/react@" ++ p))
        with e1 | t1 <;> rw [h1] at h
    · simp at h
    · rcases h2 : loadHighestNPMVersionMatching (env.npmView ("@types/react-dom@" ++ p))
          with e2 | t2 <;> rw [h2] at h
      · simp at h
      · simp only [Prod.mk.injEq, Except.ok.injEq] at h
        exact ⟨t1, t2, rfl, rfl, h.1.symm, h.2.symm⟩

lemma resolveReactDeps_events (env : Env) (p v : String) :
    ∀ ev ∈ (resolveReactDeps env p v).1, ∃ q, ev = Event.npmQuery q := by
  intro ev hev
  unfold resolveReactDeps at hev
  split_ifs at hev
  · simp at hev
  · rcases h1 : loadHighestNPMVersionMatching (env.npmView ("@types/react@" ++ p))
        with e1 | t1 <;> rw [h1] at hev
    · simp at hev
      exact hev.elim (fun h2 => ⟨_, h2⟩) (fun h2 => ⟨_, h2⟩)
    · rcases h2 : loadHighestNPMVersionMatching (env.npmView ("@types/react-dom@" ++ p))
          with e2 | t2 <;> rw [h2] at hev <;> simp at hev <;>
        exact hev.elim (fun h3 => ⟨_, h3⟩) (fun h3 => ⟨_, h3⟩)

lemma transformsOf_eq_nil {l : List Event}
    (hl : ∀ c b, Event.transform c b ∉ l) : transformsOf l = [] := by
  rw [transformsOf, List.filterMap_eq_nil_iff]
  intro ev hev
  cases ev with
  | transform c b => exact absurd hev (hl c b)
  | npmQuery q => rfl
  | prompt n => rfl
  | writeManifest pj => rfl
  | install d o => rfl

/-- Every completed run invokes the transform runner once per selected
codemod, whatever the individual outcomes are. -/
lemma completed_transform_mem (env : Env) (tr : List Event)
    (outs : List (String × Bool))
    (h : runUpgrade env = (tr, RunResult.completed outs)) :
    ∀ p ∈ outs, Event.transform p.1 p.2 ∈ tr := by
  obtain ⟨target, installed, trv, tyev, reactDeps, hf, hi, hge, hq, hrd, htr, houts⟩ :=
    runUpgrade_completed_shape env tr outs h
  intro p hp
  subst htr houts
  simp only [List.mem_map] at hp
  obtain ⟨c, hc, rfl⟩ := hp
  have hmem : Event.transform c (env.transformOk c)
      ∈ (suggestCodemods env.selectCodemods env.catalog installed target.version).2.map
          (fun c => Event.transform c (env.transformOk c)) :=
    List.mem_map_of_mem _ hc
  simp only [List.mem_cons, List.mem_append]
  tauto

/-- The transform events of a completed run list exactly the selected
codemods, in order. -/
lemma transformsOf_completed (env : Env) (tr : List Event)
    (outs : List (String × Bool))
    (h : runUpgrade env = (tr, RunResult.completed outs)) :
    transformsOf tr = outs.map Prod.fst := by
  obtain ⟨target, installed, trv, tyev, reactDeps, hf, hi, hge, hq, hrd, htr, houts⟩ :=
    runUpgrade_completed_shape env tr outs h
  subst htr houts
  have hA : transformsOf (turboStep env target.version).1 = [] :=
    transformsOf_eq_nil (fun c b hmem => by
      obtain ⟨n, hn⟩ := turboStep_events env target.version _ hmem
      simp at hn)
  have hB : transformsOf
      (suggestCodemods env.selectCodemods env.catalog installed target.version).1 = [] :=
    transformsOf_eq_nil (fun c b hmem => by
      have h2 := suggestCodemods_events _ _ _ _ _ hmem
      simp at h2)
  have hT : transformsOf tyev = [] :=
    transformsOf_eq_nil (fun c b hmem => by
      have hmem2 : Event.transform c b ∈ (resolveReactDeps env target.peerDependenciesReact trv).1 := by
        rw [hrd]
        exact hmem
      obtain ⟨q, hq2⟩ := resolveReactDeps_events env target.peerDependenciesReact trv _ hmem2
      simp at hq2)
  simp only [transformsOf] at hA hB hT ⊢
  simp [List.filterMap_append, List.filterMap_cons, List.filterMap_map, hA, hB, hT,
    Function.comp, List.map_map]
  generalize (suggestCodemods env.selectCodemods env.catalog installed target.version).2 = sel
  induction sel with
  | nil => rfl
  | cons a sel ih => simp_all [List.filterMap_cons]

/-- Case analysis on membership in the trace of a completed run. -/
lemma trace_mem_cases (env : Env) (target : TargetNextPackageJson)
    (installed : String) (tyev : List Event) (reactDeps : List String)
    (tr : List Event)
    (htr : tr = Event.npmQuery ("react@" ++ target.peerDependenciesReact)
             :: (turboStep env target.version).1
             ++ (suggestCodemods env.selectCodemods env.catalog installed target.version).1
             ++ [Event.writeManifest (turboStep env target.version).2]
             ++ tyev
             ++ Event.install (("next@" ++ target.version) :: reactDeps) env.installOk
             :: (suggestCodemods env.selectCodemods env.catalog installed target.version).2.map
                  (fun c => Event.transform c (env.transformOk c)))
    (ev : Event) (hev : ev ∈ tr) :
    ev = Event.npmQuery ("react@" ++ target.peerDependenciesReact)
    ∨ (∃ n, ev = Event.prompt n)
    ∨ ev = Event.writeManifest (turboStep env target.version).2
    ∨ ev ∈ tyev
    ∨ ev = Event.install (("next@" ++ target.version) :: reactDeps) env.installOk
    ∨ ∃ c ∈ (suggestCodemods env.selectCodemods env.catalog installed target.version).2,
        ev = Event.transform c (env.transformOk c) := by
  subst htr
  revert ev hev
  simp only [List.append_assoc, List.singleton_append]
  refine List.forall_mem_cons.mpr ⟨Or.inl rfl, ?_⟩
  refine List.forall_mem_append.mpr ⟨?_, ?_⟩
  · intro ev hev
    exact Or.inr (Or.inl (turboStep_events env target.version ev hev))
  refine List.forall_mem_append.mpr ⟨?_, ?_⟩
  · intro ev hev
    exact Or.inr (Or.inl ⟨"codemods", suggestCodemods_events _ _ _ _ ev hev⟩)
  refine List.forall_mem_cons.mpr ⟨Or.inr (Or.inr (Or.inl rfl)), ?_⟩
  refine List.forall_mem_append.mpr ⟨?_, ?_⟩
  · intro ev hev
    exact Or.inr (Or.inr (Or.inr (Or.inl hev)))
  refine List.forall_mem_cons.mpr
    ⟨Or.inr (Or.inr (Or.inr (Or.inr (Or.inl rfl)))), ?_⟩
  intro ev hev
  obtain ⟨c, hc, rfl⟩ := List.mem_map.mp hev
  exact Or.inr (Or.inr (Or.inr (Or.inr (Or.inr ⟨c, hc, rfl⟩))))

/-! ### C4: codemod failures are isolated -/

/-- C4: in every completed run the transform events enumerate every
selected codemod in order with its own outcome; in particular, if the
transform at index `i` fails, the transforms at every index greater than
`i` are still invoked, and the run still terminates with per-codemod
outcomes. -/
theorem codemod_failure_isolation (env : Env) (tr : List Event)
    (outs : List (String × Bool))
    (h : runUpgrade env = (tr, RunResult.completed outs)) :
    transformsOf tr = outs.map Prod.fst
    ∧ (∀ p ∈ outs, Event.transform p.1 p.2 ∈ tr)
    ∧ ∀ i j, ∀ hi : i < outs.length, ∀ hj : j < outs.length, i < j →
        (outs[i]).2 = false → Event.transform (outs[j]).1 (outs[j]).2 ∈ tr :=
  ⟨transformsOf_completed env tr outs h,
   completed_transform_mem env tr outs h,
   fun _ j _ hj _ _ =>
     completed_transform_mem env tr outs h (outs[j]) (List.getElem_mem hj)⟩

lemma runUpgrade_okEnv : runUpgrade okEnv = (okTrace, RunResult.completed okOuts) := by
  decide

theorem codemod_failure_isolation_witness :
    runUpgrade okEnv = (okTrace, RunResult.completed okOuts)
    ∧ okOuts[1].2 = false
    ∧ Event.transform "cm-a" true ∈ okTrace := by
  refine ⟨runUpgrade_okEnv, by decide, ?_⟩
  have h2 := (codemod_failure_isolation okEnv okTrace okOuts runUpgrade_okEnv).2.2
    1 2 (by decide) (by decide) (by decide) (by decide)
  simpa using h2

/-! ### C5: install failure does not block the codemod loop -/

/-- C5: when the external install step fails after the manifest write, the
run still completes, the failed install is reported as an event, and every
selected codemod is still attempted. -/
theorem install_failure_not_blocking (env : Env) (tr : List Event)
    (outs : List (String × Bool))
    (hfail : env.installOk = false)
    (h : runUpgrade env = (tr, RunResult.completed outs)) :
    (∃ deps, Event.install deps false ∈ tr)
    ∧ ∀ p ∈ outs, Event.transform p.1 p.2 ∈ tr := by
  obtain ⟨target, installed, trv, tyev, reactDeps, hf, hi, hge, hq, hrd, htr, houts⟩ :=
    runUpgrade_completed_shape env tr outs h
  refine ⟨⟨("next@" ++ target.version) :: reactDeps, ?_⟩,
    completed_transform_mem env tr outs h⟩
  subst htr
  rw [← hfail]
  simp [List.mem_cons, List.mem_append]

theorem install_failure_not_blocking_witness :
    okEnv.installOk = false
    ∧ Event.transform "cm-c" true ∈ okTrace := by
  refine ⟨rfl, ?_⟩
  exact (install_failure_not_blocking okEnv okTrace okOuts rfl runUpgrade_okEnv).2
    ("cm-c", true) (by decide)

/-- The only install event in the trace of a completed run is the one the
run itself issued, with the dependency list built from the react
resolution. -/
lemma install_event_identify (env : Env) (target : TargetNextPackageJson)
    (installed trv : String) (tyev : List Event) (reactDeps : List String)
    (tr : List Event)
    (htr : tr = Event.npmQuery ("react@" ++ target.peerDependenciesReact)
             :: (turboStep env target.version).1
             ++ (suggestCodemods env.selectCodemods env.catalog installed target.version).1
             ++ [Event.writeManifest (turboStep env target.version).2]
             ++ tyev
             ++ Event.install (("next@" ++ target.version) :: reactDeps) env.installOk
             :: (suggestCodemods env.selectCodemods env.catalog installed target.version).2.map
                  (fun c => Event.transform c (env.transformOk c)))
    (hrd : resolveReactDeps env target.peerDependenciesReact trv = (tyev, .ok reactDeps))
    (deps : List String) (ok : Bool)
    (hin : Event.install deps ok ∈ tr) :
    deps = ("next@" ++ target.version) :: reactDeps ∧ ok = env.installOk := by
  have hcase := trace_mem_cases env target installed tyev reactDeps tr htr _ hin
  rcases hcase with h1 | ⟨n, h2⟩ | h3 | h4 | h5 | ⟨c, hc, h6⟩
  · exact absurd h1 (by simp)
  · exact absurd h2 (by simp)
  · exact absurd h3 (by simp)
  · have hmem2 : Event.install deps ok
        ∈ (resolveReactDeps env target.peerDependenciesReact trv).1 := by
      rw [hrd]
      exact h4
    obtain ⟨q, hq2⟩ := resolveReactDeps_events env target.peerDependenciesReact trv _ hmem2
    exact absurd hq2 (by simp)
  · injection h5 with h5a h5b
    exact ⟨h5a, h5b⟩
  · exact absurd h6 (by simp)

/-! ### C9: react-dom is pinned to the react resolution -/

/-- C9: in every completed upgrade run, react-dom is installed pinned to
exactly the version the single react peer-dependency query resolved: the
install command's second and third entries are `react@v` and `react-dom@v`
for that same `v`, and the only registry queries the whole run issues are
the react query and the two `@types/*` queries — react-dom is never
separately resolved against the registry. -/
theorem react_dom_pinned_to_react_version (env : Env) (tr : List Event)
    (outs : List (String × Bool)) (target : TargetNextPackageJson)
    (deps : List String) (ok : Bool)
    (hf : env.fetchNext = some target)
    (h : runUpgrade env = (tr, RunResult.completed outs))
    (hin : Event.install deps ok ∈ tr) :
    ∃ v, loadHighestNPMVersionMatching
          (env.npmView ("react@" ++ target.peerDependenciesReact)) = .ok v
      ∧ deps.get? 1 = some ("react@" ++ v)
      ∧ deps.get? 2 = some ("react-dom@" ++ v)
      ∧ ∀ q, Event.npmQuery q ∈ tr →
          q = "react@" ++ target.peerDependenciesReact
          ∨ q = "@types/react@" ++ target.peerDependenciesReact
          ∨ q = "@types/react-dom@" ++ target.peerDependenciesReact := by
  obtain ⟨target', installed, trv, tyev, reactDeps, hf', hi, hge, hq, hrd, htr, houts⟩ :=
    runUpgrade_completed_shape env tr outs h
  rw [hf] at hf'
  obtain rfl := Option.some.inj hf'
  obtain ⟨hdeps, hok⟩ :=
    install_event_identify env target installed trv tyev reactDeps tr htr hrd deps ok hin
  subst hdeps
  have hro := resolveReactDeps_ok env target.peerDependenciesReact trv tyev reactDeps hrd
  have hstruct : reactDeps.get? 0 = some ("react@" ++ trv)
      ∧ reactDeps.get? 1 = some ("react-dom@" ++ trv) := by
    by_cases hb : (jsStartsWith trv "19.0.0-canary" || jsStartsWith trv "19.0.0-beta"
        || jsStartsWith trv "19.0.0-rc") = true
    · rw [if_pos hb] at hro
      rw [hro.2]
      exact ⟨rfl, rfl⟩
    · rw [if_neg hb] at hro
      obtain ⟨t1, t2, ht1, ht2, htyev, hdeps2⟩ := hro
      rw [hdeps2]
      exact ⟨rfl, rfl⟩
  refine ⟨trv, hq, by simpa using hstruct.1, by simpa using hstruct.2, ?_⟩
  intro q hqmem
  have hcase := trace_mem_cases env target installed tyev reactDeps tr htr _ hqmem
  rcases hcase with g1 | ⟨n, g2⟩ | g3 | g4 | g5 | ⟨c, hc, g6⟩
  · left
    injection g1
  · exact absurd g2 (by simp)
  · exact absurd g3 (by simp)
  · by_cases hb : (jsStartsWith trv "19.0.0-canary" || jsStartsWith trv "19.0.0-beta"
        || jsStartsWith trv "19.0.0-rc") = true
    · rw [if_pos hb] at hro
      rw [hro.1] at g4
      simp at g4
    · rw [if_neg hb] at hro
      obtain ⟨t1, t2, ht1, ht2, htyev, hdeps2⟩ := hro
      rw [htyev] at g4
      simp only [List.mem_cons, List.mem_singleton, List.not_mem_nil, or_false] at g4
      rcases g4 with g4 | g4
      · right; left
        injection g4
      · right; right
        injection g4
  · exact absurd g5 (by simp)
  · exact absurd g6 (by simp)

theorem react_dom_pinned_witness :
    ∃ v, loadHighestNPMVersionMatching (okEnv.npmView ("react@" ++ "^19.0.0-rc")) = .ok v
      ∧ okDeps.get? 1 = some ("react@" ++ v)
      ∧ okDeps.get? 2 = some ("react-dom@" ++ v)
      ∧ ∀ q, Event.npmQuery q ∈ okTrace →
          q = "react@" ++ "^19.0.0-rc"
          ∨ q = "@types/react@" ++ "^19.0.0-rc"
          ∨ q = "@types/react-dom@" ++ "^19.0.0-rc" :=
  react_dom_pinned_to_react_version okEnv okTrace okOuts ⟨"15.2.0", "^19.0.0-rc"⟩
    okDeps false rfl runUpgrade_okEnv (by decide)

/-! ### C10: `@types/*` pinning is gated on a 19.0.0 prerelease React -/

/-- C10: if and only if the resolved target React version starts with
`19.0.0-canary`, `19.0.0-beta`, or `19.0.0-rc`, the `@types/react` and
`@types/react-dom` dependencies are pinned to the fixed npm aliases with
no registry query issued for them; otherwise both are resolved against the
registry via the react peer-dependency range. -/
theorem types_react_pinning (env : Env) (tr : List Event)
    (outs : List (String × Bool)) (target : TargetNextPackageJson)
    (trv : String) (deps : List String) (ok : Bool)
    (hf : env.fetchNext = some target)
    (hq : loadHighestNPMVersionMatching
        (env.npmView ("react@" ++ target.peerDependenciesReact)) = .ok trv)
    (h : runUpgrade env = (tr, RunResult.completed outs))
    (hin : Event.install deps ok ∈ tr) :
    if (jsStartsWith trv "19.0.0-canary" || jsStartsWith trv "19.0.0-beta"
        || jsStartsWith trv "19.0.0-rc") = true then
      "@types/react@npm:types-react@rc" ∈ deps
      ∧ "@types/react-dom@npm:types-react-dom@rc" ∈ deps
      ∧ ∀ q, Event.npmQuery q ∈ tr → q = "react@" ++ target.peerDependenciesReact
    else
      Event.npmQuery ("@types/react@" ++ target.peerDependenciesReact) ∈ tr
      ∧ Event.npmQuery ("@types/react-dom@" ++ target.peerDependenciesReact) ∈ tr
      ∧ ∃ t1 t2,
          loadHighestNPMVersionMatching
            (env.npmView ("@types/react@" ++ target.peerDependenciesReact)) = .ok t1
          ∧ loadHighestNPMVersionMatching
              (env.npmView ("@types/react-dom@" ++ target.peerDependenciesReact)) = .ok t2
          ∧ ("@types/react@" ++ t1) ∈ deps ∧ ("@types/react-dom@" ++ t2) ∈ deps := by
  obtain ⟨target', installed, trv', tyev, reactDeps, hf', hi, hge, hq', hrd, htr, houts⟩ :=
    runUpgrade_completed_shape env tr outs h
  rw [hf] at hf'
  obtain rfl := Option.some.inj hf'
  have htv : trv' = trv := Except.ok.inj (hq'.symm.trans hq)
  rw [htv] at hrd
  obtain ⟨hdeps, hok⟩ :=
    install_event_identify env target installed trv tyev reactDeps tr htr hrd deps ok hin
  subst hdeps
  have hro := resolveReactDeps_ok env target.peerDependenciesReact trv tyev reactDeps hrd
  by_cases hb : (jsStartsWith trv "19.0.0-canary" || jsStartsWith trv "19.0.0-beta"
      || jsStartsWith trv "19.0.0-rc") = true
  · rw [if_pos hb] at hro ⊢
    obtain ⟨htyev, hdeps2⟩ := hro
    subst hdeps2
    refine ⟨by simp, by simp, ?_⟩
    intro q hqmem
    have hcase := trace_mem_cases env target installed tyev
      ["react@" ++ trv, "react-dom@" ++ trv, "@types/react@npm:types-react@rc",
       "@types/react-dom@npm:types-react-dom@rc"] tr htr _ hqmem
    rcases hcase with g1 | ⟨n, g2⟩ | g3 | g4 | g5 | ⟨c, hc, g6⟩
    · injection g1
    · exact absurd g2 (by simp)
    · exact absurd g3 (by simp)
    · rw [htyev] at g4
      exact absurd g4 (by simp)
    · exact absurd g5 (by simp)
    · exact absurd g6 (by simp)
  · rw [if_neg hb] at hro ⊢
    obtain ⟨t1, t2, ht1, ht2, htyev, hdeps2⟩ := hro
    subst hdeps2
    have hseg : ∀ ev ∈ tyev, ev ∈ tr := by
      intro ev hev
      rw [htr]
      simp only [List.append_assoc, List.singleton_append, List.mem_cons, List.mem_append]
      tauto
    refine ⟨?_, ?_, t1, t2, ht1, ht2, by simp, by simp⟩
    · exact hseg _ (by rw [htyev]; simp)
    · exact hseg _ (by rw [htyev]; simp)

lemma runUpgrade_c10Env : runUpgrade c10Env = (c10Trace, RunResult.completed []) := by
  decide

theorem types_react_pinning_witness :
    (jsStartsWith "18.3.1" "19.0.0-canary" || jsStartsWith "18.3.1" "19.0.0-beta"
      || jsStartsWith "18.3.1" "19.0.0-rc") = false
    ∧ Event.npmQuery ("@types/react@" ++ "^18.2.0") ∈ c10Trace
    ∧ Event.npmQuery ("@types/react-dom@" ++ "^18.2.0") ∈ c10Trace
    ∧ ∃ t1 t2,
        loadHighestNPMVersionMatching
          (c10Env.npmView ("@types/react@" ++ "^18.2.0")) = .ok t1
        ∧ loadHighestNPMVersionMatching
            (c10Env.npmView ("@types/react-dom@" ++ "^18.2.0")) = .ok t2
        ∧ ("@types/react@" ++ t1) ∈ c10Deps ∧ ("@types/react-dom@" ++ t2) ∈ c10Deps := by
  have h2 := types_react_pinning c10Env c10Trace [] ⟨"15.0.0", "^18.2.0"⟩
    "18.3.1" c10Deps true rfl rfl runUpgrade_c10Env (by decide)
  rw [if_neg (by decide)] at h2
  exact ⟨by decide, h2⟩

/-! ### C3: the applicability window is the half-open interval -/

lemma findIdx?_cons_zero {α : Type} (p : α → Bool) (x : α) (xs : List α) :
    (x :: xs).findIdx? p = if p x then some 0 else (xs.findIdx? p).map (fun k => k + 1) := by
  by_cases h : p x <;> simp [List.findIdx?_cons, h]

/-- On a catalog sorted strictly ascending by version key, the
`findIndex`/`findIndex`/`slice` computation of the source selects exactly
the descriptors inside the half-open window. -/
lemma relevantCodemods_eq_filter (i t : String) :
    ∀ catalog : List CodemodDescriptor,
      catalog.Pairwise (fun a b => vkey a.version < vkey b.version) →
      relevantCodemods catalog i t
        = catalog.filter (fun c =>
            decide (0 < compareVersions c.version i)
              && decide (compareVersions c.version t ≤ 0)) := by
  intro catalog
  induction catalog with
  | nil => intro _; rfl
  | cons c cs ih =>
    intro hsort
    rw [List.pairwise_cons] at hsort
    obtain ⟨hhead, htail⟩ := hsort
    have hfilter := ih htail
    unfold relevantCodemods
    rw [findIdx?_cons_zero, findIdx?_cons_zero]
    by_cases hp : 0 < compareVersions c.version i
    · by_cases hr : 0 < compareVersions c.version t
      · -- both indices are 0: empty slice, and no element satisfies the window
        have hnone : ∀ a, a ∈ c :: cs →
            ¬ ((decide (0 < compareVersions a.version i)
                && decide (compareVersions a.version t ≤ 0)) = true) := by
          intro a ha
          rcases List.mem_cons.mp ha with rfl | ha
          · simp [not_le.mpr hr]
          · have h2 : vkey t < vkey a.version :=
              lt_trans (compareVersions_pos_iff.mp hr) (hhead a ha)
            simp [not_le.mpr (compareVersions_pos_iff.mpr h2)]
        rw [List.filter_eq_nil_iff.mpr hnone]
        simp [hp, hr]
      · -- the head is inside the window
        have hj : ((cs.findIdx? (fun c => decide (0 < compareVersions c.version t))).map
              (fun k => k + 1)).getD (c :: cs).length
            = ((cs.findIdx? (fun c => decide (0 < compareVersions c.version t))).getD
                cs.length) + 1 := by
          cases cs.findIdx? (fun c => decide (0 < compareVersions c.version t)) <;> simp
        have hc : (decide (0 < compareVersions c.version i)
            && decide (compareVersions c.version t ≤ 0)) = true := by
          simp [hp, not_lt.mp hr]
        rw [List.filter_cons, if_pos hc, ← hfilter]
        simp only [hp, hr, hj]
        simp
        cases cs with
        | nil => simp [relevantCodemods]
        | cons d ds =>
          have hpd : 0 < compareVersions d.version i :=
            compareVersions_pos_iff.mpr
              (lt_trans (compareVersions_pos_iff.mp hp) (hhead d (List.mem_cons_self d ds)))
          unfold relevantCodemods
          rw [findIdx?_cons_zero
            (fun a : CodemodDescriptor => decide (0 < compareVersions a.version i))]
          simp [hpd]
    · cases hk : cs.findIdx? (fun c => decide (0 < compareVersions c.version i)) with
      | none =>
        have hnone : ∀ a, a ∈ c :: cs →
            ¬ ((decide (0 < compareVersions a.version i)
                && decide (compareVersions a.version t ≤ 0)) = true) := by
          intro a ha
          rcases List.mem_cons.mp ha with rfl | ha
          · simp [hp]
          · have h2 := List.findIdx?_eq_none_iff.mp hk a ha
            simp only [h2, Bool.false_and, Bool.false_eq_true, not_false_eq_true]
        rw [List.filter_eq_nil_iff.mpr hnone]
        simp [hp, hk]
      | some k =>
        by_cases hr : 0 < compareVersions c.version t
        · have hnone : ∀ a, a ∈ c :: cs →
              ¬ ((decide (0 < compareVersions a.version i)
                  && decide (compareVersions a.version t ≤ 0)) = true) := by
            intro a ha
            rcases List.mem_cons.mp ha with rfl | ha
            · simp [hp]
            · have h2 : vkey t < vkey a.version :=
                lt_trans (compareVersions_pos_iff.mp hr) (hhead a ha)
              simp [not_le.mpr (compareVersions_pos_iff.mpr h2)]
          rw [List.filter_eq_nil_iff.mpr hnone]
          simp [hp, hr, hk]
        · have hj : ((cs.findIdx? (fun c => decide (0 < compareVersions c.version t))).map
              (fun k => k + 1)).getD (c :: cs).length
            = ((cs.findIdx? (fun c => decide (0 < compareVersions c.version t))).getD
                cs.length) + 1 := by
            cases cs.findIdx? (fun c => decide (0 < compareVersions c.version t)) <;> simp
          have hcneg : ¬ ((decide (0 < compareVersions c.version i)
              && decide (compareVersions c.version t ≤ 0)) = true) := by
            simp [hp]
          rw [List.filter_cons, if_neg hcneg, ← hfilter]
          unfold relevantCodemods
          rw [hk]
          simp [hp, hr, hj, Nat.succ_sub_succ]

/-- C3: for a catalog in the documented insertion order (strictly
ascending `introducedInVersion`), the applicable set computed inside
`suggestCodemods` contains a descriptor iff its `introducedInVersion` is
strictly greater than the installed version and at most the target
version: a descriptor at exactly the installed version is excluded, one at
exactly the target version is included. -/
theorem applicability_window_halfopen (catalog : List CodemodDescriptor)
    (hsort : catalog.Pairwise (fun a b => vkey a.version < vkey b.version))
    (installed target : String) (d : CodemodDescriptor) :
    d ∈ relevantCodemods catalog installed target
      ↔ d ∈ catalog ∧ 0 < compareVersions d.version installed
          ∧ compareVersions d.version target ≤ 0 := by
  rw [relevantCodemods_eq_filter installed target catalog hsort, List.mem_filter]
  simp

theorem applicability_window_halfopen_witness :
    ((⟨"Codemod B", "cm-b", "15.0.0"⟩ : CodemodDescriptor)
        ∈ relevantCodemods cat3 "14.0.0" "15.0.0")
    ∧ ¬ ((⟨"Codemod A", "cm-a", "14.0.0"⟩ : CodemodDescriptor)
        ∈ relevantCodemods cat3 "14.0.0" "15.0.0") :=
  ⟨(applicability_window_halfopen cat3 (by decide) "14.0.0" "15.0.0"
      ⟨"Codemod B", "cm-b", "15.0.0"⟩).mpr (by decide),
   fun hmem => by
    have h2 := (applicability_window_halfopen cat3 (by decide) "14.0.0" "15.0.0"
      ⟨"Codemod A", "cm-a", "14.0.0"⟩).mp hmem
    revert h2
    decide⟩

/-! ### C1: presentation and application order of the codemod sequence -/

/-- C1 counterexample: with the ascending two-element catalog
`[A@14.0.0, B@15.0.0]`, installed 13.0.0 and target 15.0.0, the applicable
slice is `[A, B]` in catalog order, yet `suggestCodemods` presents and
returns `["cm-b", "cm-a"]` — the `.reverse()` before the prompt — and a
full run applies the transforms in that same reversed order.  The first
returned codemod's `introducedInVersion` (15.0.0) strictly exceeds the
second's (14.0.0), so the sequence is not in ascending
`introducedInVersion` order. -/
theorem codemod_order_counterexample :
    relevantCodemods c1Catalog "13.0.0" "15.0.0"
      = [⟨"Codemod A", "cm-a", "14.0.0"⟩, ⟨"Codemod B", "cm-b", "15.0.0"⟩]
    ∧ (suggestCodemods (fun l => l) c1Catalog "13.0.0" "15.0.0").2 = ["cm-b", "cm-a"]
    ∧ transformsOf (runUpgrade c1Env).1 = ["cm-b", "cm-a"]
    ∧ 0 < compareVersions "15.0.0" "14.0.0" :=
  ⟨by decide, by decide, by decide, by decide⟩

/-- C1 amended: for a catalog in the documented insertion order and an
order-preserving selection oracle, the sequence `suggestCodemods` presents
and returns is in strictly descending `introducedInVersion` order — the
reverse of catalog insertion order: the returned selection is an
order-preserving subsequence of the reversed applicable slice, and a
completed run applies the transforms in exactly the returned order. -/
theorem codemod_order_descending (catalog : List CodemodDescriptor)
    (hsort : catalog.Pairwise (fun a b => vkey a.version < vkey b.version))
    (oracle : List String → List String)
    (horacle : ∀ l, (oracle l).Sublist l)
    (installed target : String) :
    (relevantCodemods catalog installed target).reverse.Pairwise
        (fun a b => vkey b.version < vkey a.version)
    ∧ (suggestCodemods oracle catalog installed target).2.Sublist
        ((relevantCodemods catalog installed target).reverse.map (fun d => d.value))
    ∧ ∀ env : Env, env.catalog = catalog → env.selectCodemods = oracle →
        ∀ target' installed', env.fetchNext = some target' →
          env.installedNext = some installed' →
          ∀ tr outs, runUpgrade env = (tr, RunResult.completed outs) →
            transformsOf tr
              = (suggestCodemods oracle catalog installed' target'.version).2 := by
  have hsub : List.Sublist (relevantCodemods catalog installed target) catalog := by
    unfold relevantCodemods
    cases catalog.findIdx?
        (fun c => decide (0 < compareVersions c.version installed)) with
    | none => exact List.nil_sublist catalog
    | some k =>
      exact (List.take_sublist _ _).trans (List.drop_sublist k catalog)
  refine ⟨?_, ?_, ?_⟩
  · rw [List.pairwise_reverse]
    exact (hsort.sublist hsub).imp (fun h => h)
  · unfold suggestCodemods
    cases hrel : relevantCodemods catalog installed target with
    | nil => simp
    | cons d ds => exact horacle ((d :: ds).reverse.map (fun c => c.value))
  · intro env hcat horc target' installed' hf hi tr outs h
    obtain ⟨target'', installed'', trv, tyev, reactDeps, hf', hi', hge, hq, hrd, htr, houts⟩ :=
      runUpgrade_completed_shape env tr outs h
    rw [hf] at hf'
    obtain rfl := Option.some.inj hf'
    rw [hi] at hi'
    obtain rfl := Option.some.inj hi'
    have h2 := transformsOf_completed env tr outs h
    rw [houts] at h2
    rw [h2, ← hcat, ← horc]
    simp only [List.map_map]
    have hid : (Prod.fst ∘ fun c : String => (c, env.transformOk c)) = id := by
      funext c
      rfl
    rw [hid, List.map_id]

theorem codemod_order_descending_witness :
    ((relevantCodemods c1Catalog "13.0.0" "15.0.0").reverse.Pairwise
        (fun a b => vkey b.version < vkey a.version))
    ∧ (suggestCodemods (fun l => l) c1Catalog "13.0.0" "15.0.0").2.Sublist
        ((relevantCodemods c1Catalog "13.0.0" "15.0.0").reverse.map (fun d => d.value)) := by
  have h2 := codemod_order_descending c1Catalog (by decide) (fun l => l)
    (fun l => List.Sublist.refl l) "13.0.0" "15.0.0"
  exact ⟨h2.1, h2.2.1⟩

end NextCodemod
